import Mathlib

/-!
Verification of the Auto-Send Scheduling Engine
(`src/utils/channelAutomationState.ts` and the Tick Processor of the spec).

Times of day are modelled as minute-of-day naturals.  The source stores slot
times as zero-padded `"HH:MM"` strings and sorts them lexicographically with
`Array.prototype.sort`; for well-formed times (which the validation boundary
guarantees, spec 4.1) lexicographic order on the strings coincides with
numeric order on the minute values, so `channelTimes` below sorts naturals.
`hhmmToMinutes` on a well-formed time is then the identity and the
`Number.isNaN` skips in the source are vacuous.
-/

namespace AutoSend

/-- The four automation states of `ChannelAutomationState` in the source. -/
inductive ChState where
  | current
  | next
  | previous
  | default
deriving Repr, DecidableEq

/-- One auto-send schedule slot (`ChannelAutoSendSchedule` in
`src/domain/channel.ts`), with `time` as minute of day. -/
structure ChannelAutoSendSchedule where
  sid : String
  enabled : Bool
  daysOfWeek : List Nat
  time : Nat
  promptsPerRun : Nat
  lastRunAt : Option String
deriving Repr, DecidableEq

/-- The fields of `Channel` (`src/domain/channel.ts`) that the classifier
reads; an absent `autoSendSchedules` array is the empty list. -/
structure Channel where
  id : String
  autoSendEnabled : Bool
  autoSendSchedules : List ChannelAutoSendSchedule
deriving Repr, DecidableEq

/-- A JavaScript `number` argument, as far as the clamp in the source can
distinguish values: `NaN`, or an integer (fractional values behave like the
nearest integer with the same truthiness and order, which the claims never
separate). -/
inductive JSNum where
  | nan
  | int (n : Int)
deriving Repr, DecidableEq

/-- JavaScript `x || d`: `NaN` and `0` are falsy. -/
def jsOrDefault (x : JSNum) (d : Int) : Int :=
  match x with
  | JSNum.nan => d
  | JSNum.int n => if n = 0 then d else n

/-- The clamp `Math.max(1, Math.min(60, minIntervalMinutes || 11))` — lines 34 and 127
of `channelAutomationState.ts`.  The clamped value is at least `1`, so it is
returned as a natural. -/
def clampInterval (x : JSNum) : Nat :=
  (max 1 (min 60 (jsOrDefault x 11))).toNat

/-- The enabled slots' times of a channel, sorted ascending — lines 25–28
(`filter enabled && time`, `map time`, `sort`). -/
def channelTimes (c : Channel) : List Nat :=
  List.insertionSort (· ≤ ·)
    ((c.autoSendSchedules.filter (fun s => s.enabled)).map (fun s => s.time))

/-- Slot activity test, lines 41–49: with `endMinutes = t + W`, the slot is
active in the non-wrapping case iff `t ≤ now < endMinutes`, and in the
wrapping case iff `now ≥ t` or `now < endMinutes % 1440`. -/
def slotIsActive (t now W : Nat) : Bool :=
  let endMinutes := t + W
  if endMinutes < 1440 then
    decide (t ≤ now ∧ now < endMinutes)
  else
    decide (now ≥ t ∨ now < endMinutes % 1440)

/-- Ended-today test of the previous-channel scan, lines 147–155: with
`endMinutes = t + W`, past iff `now ≥ endMinutes` (non-wrapping) or
`endMinutes % 1440 ≤ now < t` (wrapping). -/
def slotIsPast (t now W : Nat) : Bool :=
  let endMinutes := t + W
  if endMinutes < 1440 then
    decide (now ≥ endMinutes)
  else
    decide (now ≥ endMinutes % 1440 ∧ now < t)

/-- The function `getChannelState`, lines 15–72: active slot → `current` (first active in
ascending time order); else first time strictly after `now` → `next`; else
the earliest time (`times[0]`, tomorrow) → `next`; else `default`. -/
def getChannelState (c : Channel) (now : Nat) (mi : JSNum) : ChState × Option Nat :=
  if !c.autoSendEnabled || c.autoSendSchedules.isEmpty then (ChState.default, none)
  else
    let times := channelTimes c
    if times.isEmpty then (ChState.default, none)
    else
      let W := clampInterval mi
      match times.find? (fun t => slotIsActive t now W) with
      | some t => (ChState.current, some t)
      | none =>
        match times.find? (fun t => decide (now < t)) with
        | some t => (ChState.next, some t)
        | none =>
          match times.head? with
          | some t => (ChState.next, some t)
          | none => (ChState.default, none)

/-- The accumulator records of `calculateChannelStates`
(`{ channelId, timeSlot, minutes }`). -/
structure Pick where
  channelId : String
  timeSlot : Nat
  minutes : Nat
deriving Repr, DecidableEq

/-- Update step of the current-channel scan (line 97): replace the
accumulator when the candidate's minutes are strictly larger. -/
def argmaxStep (acc : Option Pick) (e : Pick) : Option Pick :=
  match acc with
  | none => some e
  | some p => if e.minutes > p.minutes then some e else some p

/-- Update step of the next-channel scan (line 118): replace the accumulator
when the candidate's minutes are strictly smaller. -/
def argminStep (acc : Option Pick) (e : Pick) : Option Pick :=
  match acc with
  | none => some e
  | some p => if e.minutes < p.minutes then some e else some p

/-- Whether an accumulated pick is for channel id `cid`
(`channel.id === currentChannel.channelId` guards). -/
def pickMatches (p? : Option Pick) (cid : String) : Bool :=
  match p? with
  | some p => cid == p.channelId
  | none => false

/-- Apply an accumulator update to an optional candidate: a channel that
contributes no candidate leaves the accumulator unchanged. -/
def stepWith {β γ : Type} (step : γ → β → γ) (a : γ) (e? : Option β) : γ :=
  match e? with
  | some e => step a e
  | none => a

/-- Candidate of the current-channel scan, lines 92–100: a channel whose
per-channel state is `current` contributes its representative slot. -/
def currentCandidate (now : Nat) (mi : JSNum) (c : Channel) : Option Pick :=
  match getChannelState c now mi with
  | (ChState.current, some t) => some ⟨c.id, t, t⟩
  | _ => none

/-- First scan of `calculateChannelStates`, lines 91–102: the per-channel
`current` pick with the largest representative minutes wins (first wins
ties). -/
def findCurrentPick (channels : List Channel) (now : Nat) (mi : JSNum) : Option Pick :=
  channels.foldl (fun acc c => stepWith argmaxStep acc (currentCandidate now mi c)) none

/-- Normalisation of a `next` slot for comparison, line 117: a time at or
before `now` fires tomorrow. -/
def normNext (t now : Nat) : Nat :=
  if t ≤ now then t + 1440 else t

/-- Candidate of the next-channel scan, lines 107–121: skip the current
channel; a per-channel `next` contributes its normalised minutes. -/
def nextCandidate (cur : Option Pick) (now : Nat) (mi : JSNum) (c : Channel) : Option Pick :=
  if pickMatches cur c.id then none
  else
    match getChannelState c now mi with
    | (ChState.next, some t) => some ⟨c.id, t, normNext t now⟩
    | _ => none

/-- Second scan of `calculateChannelStates`, lines 105–123: smallest
normalised minutes wins (first wins ties). -/
def findNextPick (channels : List Channel) (cur : Option Pick) (now : Nat) (mi : JSNum) :
    Option Pick :=
  channels.foldl (fun acc c => stepWith argminStep acc (nextCandidate cur now mi c)) none

/-- Eligibility for the previous-channel scans, lines 131–135 and 168–171:
not the current channel, and automation enabled (absent schedules being the
empty list). -/
def prevEligible (cur : Option Pick) (c : Channel) : Bool :=
  !(pickMatches cur c.id) && c.autoSendEnabled

/-- Third scan of `calculateChannelStates`, lines 127–188: first the slot
with the largest time among the slots already ended today of eligible
channels; if none, the largest among the eligible channels' latest slots
(`times[times.length - 1]`, i.e. the last of the ascending sort). -/
def findPrevPick (channels : List Channel) (cur : Option Pick) (now W : Nat) : Option Pick :=
  let fromPast := channels.foldl (fun acc c =>
    if prevEligible cur c then
      (channelTimes c).foldl (fun a t =>
        if slotIsPast t now W then argmaxStep a ⟨c.id, t, t⟩ else a) acc
    else acc) none
  match fromPast with
  | some p => some p
  | none =>
    channels.foldl (fun acc c =>
      if prevEligible cur c then
        stepWith argmaxStep acc
          (((channelTimes c).getLast?).map (fun t => ⟨c.id, t, t⟩))
      else acc) none

/-- The record `ChannelStateInfo` of the source. -/
structure ChannelStateInfo where
  channelId : String
  state : ChState
  timeSlot : Option Nat
deriving Repr, DecidableEq

/-- Final assignment, lines 191–216: `current` takes precedence over `next`,
which takes precedence over `previous`; everything else is `default`.  The
assigned value depends only on the channel's id and the three picks. -/
def assignState (cur nxt prv : Option Pick) (cid : String) : ChannelStateInfo :=
  if pickMatches cur cid then
    ⟨cid, ChState.current, Option.map Pick.timeSlot cur⟩
  else if pickMatches nxt cid then
    ⟨cid, ChState.next, Option.map Pick.timeSlot nxt⟩
  else if pickMatches prv cid then
    ⟨cid, ChState.previous, Option.map Pick.timeSlot prv⟩
  else
    ⟨cid, ChState.default, none⟩

/-- JavaScript `Map.prototype.set` on an insertion-ordered association list:
an existing key is updated in place, a new key is appended. -/
def mapSet (m : List (String × ChannelStateInfo)) (k : String) (v : ChannelStateInfo) :
    List (String × ChannelStateInfo) :=
  if m.any (fun e => e.1 == k) then
    m.map (fun e => if e.1 == k then (k, v) else e)
  else m ++ [(k, v)]

/-- The function `calculateChannelStates`, lines 77–219, with `now` (the source's
`nowMinutes`, derived from the wall clock) and the raw `minIntervalMinutes`
argument made explicit.  Returns the `Map` as an insertion-ordered
association list keyed by channel id. -/
def calculateChannelStates (channels : List Channel) (now : Nat) (mi : JSNum) :
    List (String × ChannelStateInfo) :=
  let cur := findCurrentPick channels now mi
  let nxt := findNextPick channels cur now mi
  let prv := findPrevPick channels cur now (clampInterval mi)
  channels.foldl (fun m c => mapSet m c.id (assignState cur nxt prv c.id)) []

/-!
### Tick Processor model

Modelled from the spec: the Tick Processor (`processAutoSendTick` of the
backend's auto-send scheduler service) is imported by the backend entry
point but its source is not among the provided files; the definitions below
follow spec 4.3 (steps 2, 3 and 5) and the data model of spec 3.
-/

/-- Modelled from the spec: one slot as the Tick Processor sees it
(spec 3, Slot), with `lastFiredAt` recorded as the calendar date of the last
firing (spec 4.3 keys the idempotency gate on the calendar date of `now`). -/
structure TickSlot where
  sid : String
  enabled : Bool
  daysOfWeek : List Nat
  time : Nat
  promptsPerRun : Nat
  lastFiredAt : Option Nat
deriving Repr, DecidableEq

/-- Modelled from the spec: the clock input of a tick — calendar date
(abstract index), weekday 0–6 and minute of day (spec 6, Clock/trigger). -/
structure TickNow where
  date : Nat
  weekday : Nat
  minuteOfDay : Nat
deriving Repr, DecidableEq

/-- Modelled from the spec: a slot is due when it is enabled, its
`daysOfWeek` includes today's weekday and its `time` equals the tick's
minute of day (spec 4.3 step 2). -/
def slotDue (s : TickSlot) (now : TickNow) : Bool :=
  s.enabled && s.daysOfWeek.contains now.weekday && (s.time == now.minuteOfDay)

/-- Modelled from the spec: the idempotency gate — a due slot is skipped when
its `lastFiredAt` already falls on the same calendar date as `now`
(spec 4.3 step 3). -/
def idempotencyGate (s : TickSlot) (now : TickNow) : Bool :=
  match s.lastFiredAt with
  | some d => d == now.date
  | none => false

/-- Modelled from the spec: processing one slot at one tick — a due,
non-gated slot fires (one firing, comprising `promptsPerRun` generation
invocations, spec 4.3 step 4) and `lastFiredAt` is set to today's date
regardless of invocation outcomes (spec 4.3 step 5).  Returns the updated
slot and the number of firings performed (0 or 1). -/
def tickSlot (s : TickSlot) (now : TickNow) : TickSlot × Nat :=
  if slotDue s now && !(idempotencyGate s now) then
    ({ s with lastFiredAt := some now.date }, 1)
  else (s, 0)

/-!
### Candidate lists describing the fleet scans
-/

/-- The ended-today candidates of an eligible channel, as `Pick` records. -/
def pastCands (now W : Nat) (c : Channel) : List Pick :=
  ((channelTimes c).filter (fun t => slotIsPast t now W)).map (fun t => ⟨c.id, t, t⟩)

/-- All ended-today candidates of the previous-channel scan. -/
def pastCandidates (channels : List Channel) (cur : Option Pick) (now W : Nat) : List Pick :=
  channels.flatMap (fun c => if prevEligible cur c then pastCands now W c else [])

/-- The fallback candidates of the previous-channel scan: each eligible
channel's latest slot. -/
def lastSlotCandidates (channels : List Channel) (cur : Option Pick) : List Pick :=
  channels.filterMap (fun c =>
    if prevEligible cur c then
      ((channelTimes c).getLast?).map (fun t => (⟨c.id, t, t⟩ : Pick))
    else none)

/-- Minutes until a slot at `t` fires, seen from `now`: `t - now` when
`t > now`, else `t + 1440 - now` (the slot fires tomorrow).  The
normalisation of the next-channel scan is this quantity shifted by `now`. -/
def minutesUntilFire (t now : Nat) : Nat :=
  if now < t then t - now else t + 1440 - now

/-!
### Concrete channels used in scenario claims and witnesses
-/

/-- The channel of the spec's worked scenario: enabled slots at 08:00 and
20:00. -/
def demoC4 : Channel :=
  ⟨"c1", true, [⟨"s1", true, [0, 1, 2, 3, 4, 5, 6], 480, 1, none⟩,
                ⟨"s2", true, [0, 1, 2, 3, 4, 5, 6], 1200, 1, none⟩]⟩

/-- A channel with two overlapping slots, 08:00 and 08:05: at 08:05 both are
inside their active window. -/
def chC3 : Channel :=
  ⟨"c3", true, [⟨"a", true, [1, 2, 3, 4, 5], 480, 1, none⟩,
                ⟨"b", true, [1, 2, 3, 4, 5], 485, 1, none⟩]⟩

/-- A channel with the single slot 09:00 of the fallback-to-next-day
scenario. -/
def singleNine : Channel :=
  ⟨"c9", true, [⟨"s", true, [1, 2, 3, 4, 5], 540, 1, none⟩]⟩

/-- A channel with one slot at 15:00: upcoming at 10:00. -/
def chUpcoming : Channel :=
  ⟨"a", true, [⟨"x", true, [1, 2, 3, 4, 5], 900, 1, none⟩]⟩

/-- A channel with one slot at 08:00: already ended at 10:00 with window 11,
so at 10:00 it is the previous pick of the fleet `[chUpcoming, chEnded]`. -/
def chEnded : Channel :=
  ⟨"b", true, [⟨"y", true, [1, 2, 3, 4, 5], 480, 1, none⟩]⟩

/-!
### Helper lemmas
-/

theorem channelTimes_sorted (c : Channel) : (channelTimes c).Sorted (· ≤ ·) :=
  List.sorted_insertionSort _ _

theorem mem_channelTimes {c : Channel} {t : Nat} :
    t ∈ channelTimes c ↔
      ∃ s ∈ c.autoSendSchedules, s.enabled = true ∧ s.time = t := by
  unfold channelTimes
  rw [List.mem_insertionSort]
  simp only [List.mem_map, List.mem_filter]
  constructor
  · rintro ⟨s, ⟨hs, he⟩, ht⟩
    exact ⟨s, hs, he, ht⟩
  · rintro ⟨s, hs, he, ht⟩
    exact ⟨s, ⟨hs, he⟩, ht⟩

/-- In a sorted list, the first element satisfying a predicate is a lower
bound of every element satisfying it. -/
theorem find?_sorted_le {l : List Nat} (hs : l.Sorted (· ≤ ·)) {p : Nat → Bool} {u : Nat}
    (h : l.find? p = some u) : ∀ v ∈ l, p v = true → u ≤ v := by
  induction l with
  | nil => simp at h
  | cons a tl ih =>
    rw [List.find?_cons] at h
    cases hpa : p a with
    | true =>
      rw [hpa] at h
      cases h
      intro v hv _
      rcases List.mem_cons.mp hv with rfl | hv
      · exact le_refl _
      · exact List.rel_of_sorted_cons hs v hv
    | false =>
      rw [hpa] at h
      intro v hv hpv
      replace hpa : ¬ p a = true := by simp [hpa]
      rcases List.mem_cons.mp hv with rfl | hv
      · exact absurd hpv hpa
      · exact ih hs.of_cons h v hv hpv

theorem slotIsActive_eq (t now W : Nat) :
    slotIsActive t now W =
      if t + W < 1440 then decide (t ≤ now ∧ now < t + W)
      else decide (now ≥ t ∨ now < (t + W) % 1440) := rfl

theorem slotIsPast_eq (t now W : Nat) :
    slotIsPast t now W =
      if t + W < 1440 then decide (now ≥ t + W)
      else decide (now ≥ (t + W) % 1440 ∧ now < t) := rfl

/-- Normal form of `getChannelState` for an automation-enabled channel with a
nonempty schedule array: the `times.length === 0` early return coincides with
the fall-through on an empty `times` list, so only the two guards on the
channel itself remain as hypotheses. -/
theorem getChannelState_eq (c : Channel) (now : Nat) (mi : JSNum)
    (hen : c.autoSendEnabled = true) (hne : c.autoSendSchedules ≠ []) :
    getChannelState c now mi =
      match (channelTimes c).find? (fun t => slotIsActive t now (clampInterval mi)) with
      | some t => (ChState.current, some t)
      | none =>
        match (channelTimes c).find? (fun t => decide (now < t)) with
        | some t => (ChState.next, some t)
        | none =>
          match (channelTimes c).head? with
          | some t => (ChState.next, some t)
          | none => (ChState.default, none) := by
  have hie : c.autoSendSchedules.isEmpty = false := by
    simpa [List.isEmpty_iff] using hne
  simp only [getChannelState, hen, hie, Bool.not_true, Bool.false_or, if_false]
  by_cases h : channelTimes c = []
  · simp [h]
  · have h2 : (channelTimes c).isEmpty = false := by simpa [List.isEmpty_iff]
    simp [h2]

theorem argmaxStep_some (q e : Pick) :
    argmaxStep (some q) e = some (if e.minutes > q.minutes then e else q) := by
  show (if e.minutes > q.minutes then some e else some q) = _
  by_cases h : e.minutes > q.minutes
  · rw [if_pos h, if_pos h]
  · rw [if_neg h, if_neg h]

theorem argminStep_some (q e : Pick) :
    argminStep (some q) e = some (if e.minutes < q.minutes then e else q) := by
  show (if e.minutes < q.minutes then some e else some q) = _
  by_cases h : e.minutes < q.minutes
  · rw [if_pos h, if_pos h]
  · rw [if_neg h, if_neg h]

theorem foldl_argmaxStep_le_acc (l : List Pick) :
    ∀ q r : Pick, l.foldl argmaxStep (some q) = some r → q.minutes ≤ r.minutes := by
  induction l with
  | nil =>
    intro q r h
    cases h
    exact le_refl _
  | cons a tl ih =>
    intro q r h
    rw [List.foldl_cons, argmaxStep_some] at h
    by_cases ha : a.minutes > q.minutes
    · rw [if_pos ha] at h
      exact le_trans (le_of_lt ha) (ih a r h)
    · rw [if_neg ha] at h
      exact ih q r h

theorem foldl_argminStep_ge_acc (l : List Pick) :
    ∀ q r : Pick, l.foldl argminStep (some q) = some r → r.minutes ≤ q.minutes := by
  induction l with
  | nil =>
    intro q r h
    cases h
    exact le_refl _
  | cons a tl ih =>
    intro q r h
    rw [List.foldl_cons, argminStep_some] at h
    by_cases ha : a.minutes < q.minutes
    · rw [if_pos ha] at h
      exact le_trans (ih a r h) (le_of_lt ha)
    · rw [if_neg ha] at h
      exact ih q r h

theorem foldl_argmaxStep_mem (l : List Pick) :
    ∀ (acc : Option Pick) (r : Pick), l.foldl argmaxStep acc = some r →
      r ∈ l ∨ acc = some r := by
  induction l with
  | nil =>
    intro acc r h
    exact Or.inr h
  | cons a tl ih =>
    intro acc r h
    rw [List.foldl_cons] at h
    rcases ih (argmaxStep acc a) r h with hm | he
    · exact Or.inl (List.mem_cons_of_mem a hm)
    · cases acc with
      | none =>
        cases he
        exact Or.inl (List.mem_cons_self a tl)
      | some q =>
        rw [argmaxStep_some] at he
        by_cases ha : a.minutes > q.minutes
        · rw [if_pos ha] at he
          cases he
          exact Or.inl (List.mem_cons_self a tl)
        · rw [if_neg ha] at he
          exact Or.inr he

theorem foldl_argminStep_mem (l : List Pick) :
    ∀ (acc : Option Pick) (r : Pick), l.foldl argminStep acc = some r →
      r ∈ l ∨ acc = some r := by
  induction l with
  | nil =>
    intro acc r h
    exact Or.inr h
  | cons a tl ih =>
    intro acc r h
    rw [List.foldl_cons] at h
    rcases ih (argminStep acc a) r h with hm | he
    · exact Or.inl (List.mem_cons_of_mem a hm)
    · cases acc with
      | none =>
        cases he
        exact Or.inl (List.mem_cons_self a tl)
      | some q =>
        rw [argminStep_some] at he
        by_cases ha : a.minutes < q.minutes
        · rw [if_pos ha] at he
          cases he
          exact Or.inl (List.mem_cons_self a tl)
        · rw [if_neg ha] at he
          exact Or.inr he

theorem foldl_argmaxStep_ge (l : List Pick) :
    ∀ (acc : Option Pick) (r : Pick), l.foldl argmaxStep acc = some r →
      ∀ e ∈ l, e.minutes ≤ r.minutes := by
  induction l with
  | nil =>
    intro acc r _ e he
    simp at he
  | cons a tl ih =>
    intro acc r h e he
    rw [List.foldl_cons] at h
    rcases List.mem_cons.mp he with rfl | he
    · have step : ∃ q, argmaxStep acc e = some q ∧ e.minutes ≤ q.minutes := by
        cases acc with
        | none => exact ⟨e, rfl, le_refl _⟩
        | some q =>
          rw [argmaxStep_some]
          by_cases ha : e.minutes > q.minutes
          · rw [if_pos ha]
            exact ⟨e, rfl, le_refl _⟩
          · rw [if_neg ha]
            exact ⟨q, rfl, Nat.le_of_not_lt ha⟩
      rcases step with ⟨q, hq, hle⟩
      rw [hq] at h
      exact le_trans hle (foldl_argmaxStep_le_acc tl q r h)
    · exact ih (argmaxStep acc a) r h e he

theorem foldl_argminStep_le (l : List Pick) :
    ∀ (acc : Option Pick) (r : Pick), l.foldl argminStep acc = some r →
      ∀ e ∈ l, r.minutes ≤ e.minutes := by
  induction l with
  | nil =>
    intro acc r _ e he
    simp at he
  | cons a tl ih =>
    intro acc r h e he
    rw [List.foldl_cons] at h
    rcases List.mem_cons.mp he with rfl | he
    · have step : ∃ q, argminStep acc e = some q ∧ q.minutes ≤ e.minutes := by
        cases acc with
        | none => exact ⟨e, rfl, le_refl _⟩
        | some q =>
          rw [argminStep_some]
          by_cases ha : e.minutes < q.minutes
          · rw [if_pos ha]
            exact ⟨e, rfl, le_refl _⟩
          · rw [if_neg ha]
            exact ⟨q, rfl, Nat.le_of_not_lt ha⟩
      rcases step with ⟨q, hq, hle⟩
      rw [hq] at h
      exact le_trans (foldl_argminStep_ge_acc tl q r h) hle
    · exact ih (argminStep acc a) r h e he

theorem foldl_argmaxStep_none (l : List Pick) :
    ∀ acc : Option Pick, l.foldl argmaxStep acc = none → acc = none ∧ l = [] := by
  induction l with
  | nil =>
    intro acc h
    exact ⟨h, rfl⟩
  | cons a tl ih =>
    intro acc h
    rw [List.foldl_cons] at h
    rcases ih (argmaxStep acc a) h with ⟨hstep, _⟩
    cases acc with
    | none => simp [argmaxStep] at hstep
    | some q => rw [argmaxStep_some] at hstep; simp at hstep

/-!
### The fleet scans as folds over candidate lists
-/

theorem foldl_filterMap_step {α β γ : Type} (f : α → Option β) (step : γ → β → γ) :
    ∀ (l : List α) (acc : γ),
      l.foldl (fun a c => stepWith step a (f c)) acc = (l.filterMap f).foldl step acc := by
  intro l
  induction l with
  | nil =>
    intro acc
    rfl
  | cons a tl ih =>
    intro acc
    rw [List.foldl_cons, List.filterMap_cons]
    cases h : f a with
    | none =>
      simp only [h, stepWith]
      exact ih acc
    | some b =>
      simp only [h, stepWith, List.foldl_cons]
      exact ih (step acc b)

theorem findCurrentPick_eq (channels : List Channel) (now : Nat) (mi : JSNum) :
    findCurrentPick channels now mi =
      (channels.filterMap (currentCandidate now mi)).foldl argmaxStep none :=
  foldl_filterMap_step (currentCandidate now mi) argmaxStep channels none

theorem findNextPick_eq (channels : List Channel) (cur : Option Pick) (now : Nat) (mi : JSNum) :
    findNextPick channels cur now mi =
      (channels.filterMap (nextCandidate cur now mi)).foldl argminStep none :=
  foldl_filterMap_step (nextCandidate cur now mi) argminStep channels none

theorem inner_past_fold (cid : String) (now W : Nat) :
    ∀ (times : List Nat) (acc : Option Pick),
      times.foldl (fun a t =>
          if slotIsPast t now W then argmaxStep a ⟨cid, t, t⟩ else a) acc =
        ((times.filter (fun t => slotIsPast t now W)).map
          (fun t => (⟨cid, t, t⟩ : Pick))).foldl argmaxStep acc := by
  intro times
  induction times with
  | nil =>
    intro acc
    rfl
  | cons t tl ih =>
    intro acc
    rw [List.foldl_cons, List.filter_cons]
    cases h : slotIsPast t now W with
    | false =>
      simp only [h, Bool.false_eq_true, if_false]
      exact ih acc
    | true =>
      simp only [h, if_true, List.map_cons, List.foldl_cons]
      exact ih (argmaxStep acc ⟨cid, t, t⟩)

theorem foldl_flatMap_step {α β γ : Type} (g : α → List β) (step : γ → β → γ) :
    ∀ (l : List α) (acc : γ),
      (l.flatMap g).foldl step acc = l.foldl (fun a c => (g c).foldl step a) acc := by
  intro l
  induction l with
  | nil =>
    intro acc
    rfl
  | cons a tl ih =>
    intro acc
    rw [List.flatMap_cons, List.foldl_append, List.foldl_cons]
    exact ih _

theorem findPrevPick_eq (channels : List Channel) (cur : Option Pick) (now W : Nat) :
    findPrevPick channels cur now W =
      match (pastCandidates channels cur now W).foldl argmaxStep none with
      | some p => some p
      | none => (lastSlotCandidates channels cur).foldl argmaxStep none := by
  unfold findPrevPick
  have h1 : ∀ acc : Option Pick,
      channels.foldl (fun acc c =>
        if prevEligible cur c then
          (channelTimes c).foldl (fun a t =>
            if slotIsPast t now W then argmaxStep a ⟨c.id, t, t⟩ else a) acc
        else acc) acc =
      (pastCandidates channels cur now W).foldl argmaxStep acc := by
    intro acc
    rw [pastCandidates, foldl_flatMap_step]
    congr 1
    funext a c
    by_cases h : prevEligible cur c
    · rw [if_pos h, if_pos h, inner_past_fold]
      rfl
    · rw [if_neg h, if_neg h]
      rfl
  have h2 :
      channels.foldl (fun acc c =>
        if prevEligible cur c then
          stepWith argmaxStep acc
            (((channelTimes c).getLast?).map (fun t => ⟨c.id, t, t⟩))
        else acc) none =
      (lastSlotCandidates channels cur).foldl argmaxStep none := by
    rw [lastSlotCandidates, ← foldl_filterMap_step]
    congr 1
    funext a c
    by_cases h : prevEligible cur c
    · rw [if_pos h, if_pos h]
    · rw [if_neg h, if_neg h]
      rfl
  rw [h1, h2]

/-!
### The result `Map` of `calculateChannelStates`
-/

theorem pickMatches_some {p? : Option Pick} {cid : String} (h : pickMatches p? cid = true) :
    ∃ p, p? = some p ∧ cid = p.channelId := by
  cases p? with
  | none => simp [pickMatches] at h
  | some p =>
    refine ⟨p, rfl, ?_⟩
    simpa [pickMatches] using h

theorem mapSet_keys_of_mem (m : List (String × ChannelStateInfo)) (k : String)
    (v : ChannelStateInfo) (hmem : m.any (fun e => e.1 == k) = true) :
    (mapSet m k v).map Prod.fst = m.map Prod.fst := by
  unfold mapSet
  rw [if_pos hmem, List.map_map]
  apply List.map_congr_left
  intro e _
  by_cases h : e.1 == k
  · simp only [Function.comp_apply, if_pos h]
    exact (beq_iff_eq.mp h).symm
  · simp only [Function.comp_apply, if_neg h]

theorem mapSet_keys_nodup (m : List (String × ChannelStateInfo)) (k : String)
    (v : ChannelStateInfo) (h : (m.map Prod.fst).Nodup) :
    ((mapSet m k v).map Prod.fst).Nodup := by
  by_cases hmem : m.any (fun e => e.1 == k) = true
  · rw [mapSet_keys_of_mem m k v hmem]
    exact h
  · unfold mapSet
    rw [if_neg hmem, List.map_append]
    rw [List.nodup_append]
    refine ⟨h, List.nodup_singleton k, ?_⟩
    intro a ha hb
    rcases List.mem_singleton.mp hb with rfl
    rcases List.mem_map.mp ha with ⟨e, he, rfl⟩
    apply hmem
    rw [List.any_eq_true]
    exact ⟨e, he, beq_iff_eq.mpr rfl⟩

theorem mapSet_entries {g : String → ChannelStateInfo}
    (m : List (String × ChannelStateInfo)) (k : String) (v : ChannelStateInfo)
    (hm : ∀ e ∈ m, e.2 = g e.1) (hv : v = g k) :
    ∀ e ∈ mapSet m k v, e.2 = g e.1 := by
  intro e he
  unfold mapSet at he
  by_cases hmem : m.any (fun e => e.1 == k) = true
  · rw [if_pos hmem] at he
    rcases List.mem_map.mp he with ⟨a, ha, rfl⟩
    by_cases hak : a.1 == k
    · simp only [if_pos hak]
      exact hv
    · simp only [if_neg hak]
      exact hm a ha
  · rw [if_neg hmem] at he
    rcases List.mem_append.mp he with ha | hb
    · exact hm e ha
    · rcases List.mem_singleton.mp hb with rfl
      exact hv

theorem calc_fold_invariant (g : String → ChannelStateInfo) :
    ∀ (channels : List Channel) (init : List (String × ChannelStateInfo)),
      (init.map Prod.fst).Nodup →
      (∀ e ∈ init, e.2 = g e.1) →
      ((channels.foldl (fun m c => mapSet m c.id (g c.id)) init).map Prod.fst).Nodup ∧
      (∀ e ∈ channels.foldl (fun m c => mapSet m c.id (g c.id)) init, e.2 = g e.1) := by
  intro channels
  induction channels with
  | nil =>
    intro init h1 h2
    exact ⟨h1, h2⟩
  | cons c tl ih =>
    intro init h1 h2
    rw [List.foldl_cons]
    exact ih (mapSet init c.id (g c.id)) (mapSet_keys_nodup init c.id (g c.id) h1)
      (mapSet_entries init c.id (g c.id) h2 rfl)

theorem calculateChannelStates_entries (channels : List Channel) (now : Nat) (mi : JSNum) :
    ((calculateChannelStates channels now mi).map Prod.fst).Nodup ∧
    ∀ e ∈ calculateChannelStates channels now mi,
      e.2 = assignState (findCurrentPick channels now mi)
        (findNextPick channels (findCurrentPick channels now mi) now mi)
        (findPrevPick channels (findCurrentPick channels now mi) now (clampInterval mi)) e.1 := by
  unfold calculateChannelStates
  exact calc_fold_invariant _ channels [] List.nodup_nil (by intro e he; simp at he)

theorem assignState_state_current {cur nxt prv : Option Pick} {cid : String}
    (h : (assignState cur nxt prv cid).state = ChState.current) :
    pickMatches cur cid = true := by
  unfold assignState at h
  by_cases h1 : pickMatches cur cid
  · exact h1
  · rw [if_neg h1] at h
    by_cases h2 : pickMatches nxt cid
    · rw [if_pos h2] at h
      cases h
    · rw [if_neg h2] at h
      by_cases h3 : pickMatches prv cid
      · rw [if_pos h3] at h
        cases h
      · rw [if_neg h3] at h
        cases h

theorem assignState_state_next {cur nxt prv : Option Pick} {cid : String}
    (h : (assignState cur nxt prv cid).state = ChState.next) :
    pickMatches cur cid = false ∧ pickMatches nxt cid = true ∧
    (assignState cur nxt prv cid).timeSlot = Option.map Pick.timeSlot nxt := by
  unfold assignState at h ⊢
  by_cases h1 : pickMatches cur cid
  · rw [if_pos h1] at h
    cases h
  · rw [if_neg h1] at h ⊢
    by_cases h2 : pickMatches nxt cid
    · rw [if_pos h2] at h ⊢
      exact ⟨by simpa using h1, h2, rfl⟩
    · rw [if_neg h2] at h
      by_cases h3 : pickMatches prv cid
      · rw [if_pos h3] at h
        cases h
      · rw [if_neg h3] at h
        cases h

theorem assignState_state_previous {cur nxt prv : Option Pick} {cid : String}
    (h : (assignState cur nxt prv cid).state = ChState.previous) :
    pickMatches cur cid = false ∧ pickMatches nxt cid = false ∧
    pickMatches prv cid = true ∧
    (assignState cur nxt prv cid).timeSlot = Option.map Pick.timeSlot prv := by
  unfold assignState at h ⊢
  by_cases h1 : pickMatches cur cid
  · rw [if_pos h1] at h
    cases h
  · rw [if_neg h1] at h ⊢
    by_cases h2 : pickMatches nxt cid
    · rw [if_pos h2] at h
      cases h
    · rw [if_neg h2] at h ⊢
      by_cases h3 : pickMatches prv cid
      · rw [if_pos h3] at h ⊢
        exact ⟨by simpa using h1, by simpa using h2, h3, rfl⟩
      · rw [if_neg h3] at h
        cases h

/-- A list of entries with pairwise-distinct keys has at most one entry
satisfying a predicate that pins the key to a single value. -/
theorem filter_length_le_one {p : (String × ChannelStateInfo) → Bool} :
    ∀ (l : List (String × ChannelStateInfo)) (a : String),
      (l.map Prod.fst).Nodup →
      (∀ e ∈ l, p e = true → e.1 = a) →
      (l.filter p).length ≤ 1 := by
  intro l
  induction l with
  | nil =>
    intro a _ _
    simp
  | cons e tl ih =>
    intro a hk ha
    rw [List.filter_cons]
    by_cases hpe : p e = true
    · rw [if_pos hpe]
      have htl : tl.filter p = [] := by
        rw [List.filter_eq_nil_iff]
        intro x hx hpx
        have hx1 : x.1 = a := ha x (List.mem_cons_of_mem e hx) hpx
        have he1 : e.1 = a := ha e (List.mem_cons_self e tl) hpe
        have : e.1 ∉ tl.map Prod.fst := by
          rw [List.map_cons] at hk
          exact (List.nodup_cons.mp hk).1
        exact this (he1 ▸ hx1 ▸ List.mem_map_of_mem Prod.fst hx)
      rw [htl]
      simp
    · rw [if_neg hpe]
      rw [List.map_cons] at hk
      exact ih a hk.of_cons (fun x hx => ha x (List.mem_cons_of_mem e hx))

/-!
### Claim theorems
-/

/-- C2: for `now` in `[0, 1440)`, a slot at `T` with window `W` is active iff
`T ≤ now < T + W` when `T + W < 1440`, and iff `now ≥ T` or
`now < (T + W) % 1440` when the window wraps; in particular the slot
`23:50`/`W = 20` is active exactly on `{23:50 … 23:59} ∪ {00:00 … 00:09}`. -/
theorem slot_active_window_correct (T W now : Nat) (hnow : now < 1440) :
    (T + W < 1440 → (slotIsActive T now W = true ↔ (T ≤ now ∧ now < T + W))) ∧
    (1440 ≤ T + W → (slotIsActive T now W = true ↔ (now ≥ T ∨ now < (T + W) % 1440))) ∧
    (slotIsActive 1430 now 20 = true ↔ ((1430 ≤ now ∧ now ≤ 1439) ∨ now ≤ 9)) := by
  refine ⟨fun h => ?_, fun h => ?_, ?_⟩
  · rw [slotIsActive_eq, if_pos h, decide_eq_true_eq]
  · rw [slotIsActive_eq, if_neg (by omega), decide_eq_true_eq]
  · rw [slotIsActive_eq, if_neg (by norm_num), decide_eq_true_eq]
    constructor
    · intro h
      omega
    · intro h
      omega

/-- C2 witness. -/
theorem slot_active_window_correct_witness :
    (105 : Nat) < 1440 ∧
    ((100 + 20 < 1440 → (slotIsActive 100 105 20 = true ↔ (100 ≤ 105 ∧ 105 < 100 + 20))) ∧
     (1440 ≤ 100 + 20 → (slotIsActive 100 105 20 = true ↔ (105 ≥ 100 ∨ 105 < (100 + 20) % 1440))) ∧
     (slotIsActive 1430 105 20 = true ↔ ((1430 ≤ 105 ∧ 105 ≤ 1439) ∨ 105 ≤ 9))) :=
  ⟨by decide, slot_active_window_correct 100 20 105 (by decide)⟩

/-- C3 counterexample: on `chC3` at 08:05 with window 11 both slots (08:00
and 08:05) are active, and the classifier reports the smaller, 08:00 — not
the largest active time. -/
theorem current_not_largest_active :
    getChannelState chC3 485 (JSNum.int 11) = (ChState.current, some 480) ∧
    slotIsActive 480 485 (clampInterval (JSNum.int 11)) = true ∧
    slotIsActive 485 485 (clampInterval (JSNum.int 11)) = true ∧
    (480 : Nat) < 485 := by decide

/-- C3 amended: when at least one enabled slot of an automation-enabled
channel is active, the per-channel state is `current` and the representative
slot is the **smallest** active slot time (the scan runs in ascending time
order and returns the first active slot). -/
theorem current_smallest_active (c : Channel) (now : Nat) (mi : JSNum)
    (hen : c.autoSendEnabled = true)
    (t : Nat) (ht : t ∈ channelTimes c)
    (hact : slotIsActive t now (clampInterval mi) = true) :
    ∃ u, getChannelState c now mi = (ChState.current, some u) ∧
      u ∈ channelTimes c ∧ slotIsActive u now (clampInterval mi) = true ∧
      ∀ v ∈ channelTimes c, slotIsActive v now (clampInterval mi) = true → u ≤ v := by
  have hschne : c.autoSendSchedules ≠ [] := by
    rcases mem_channelTimes.mp ht with ⟨s, hs, _, _⟩
    exact List.ne_nil_of_mem hs
  have hsome : ((channelTimes c).find? (fun v => slotIsActive v now (clampInterval mi))).isSome := by
    rw [List.find?_isSome]
    exact ⟨t, ht, hact⟩
  rcases Option.isSome_iff_exists.mp hsome with ⟨u, hu⟩
  refine ⟨u, ?_, List.mem_of_find?_eq_some hu, by simpa using List.find?_some hu,
    find?_sorted_le (channelTimes_sorted c) hu⟩
  rw [getChannelState_eq c now mi hen hschne, hu]

/-- C3 amended witness. -/
theorem current_smallest_active_witness :
    chC3.autoSendEnabled = true ∧
    485 ∈ channelTimes chC3 ∧
    slotIsActive 485 485 (clampInterval (JSNum.int 11)) = true ∧
    (∃ u, getChannelState chC3 485 (JSNum.int 11) = (ChState.current, some u) ∧
      u ∈ channelTimes chC3 ∧ slotIsActive u 485 (clampInterval (JSNum.int 11)) = true ∧
      ∀ v ∈ channelTimes chC3,
        slotIsActive v 485 (clampInterval (JSNum.int 11)) = true → u ≤ v) :=
  ⟨by decide, by decide, by decide,
    current_smallest_active chC3 485 (JSNum.int 11) (by decide) 485 (by decide) (by decide)⟩

/-- C4 counterexample: for the scenario channel (slots 08:00 and 20:00,
window 11) at `now = 23:00`, the fleet reduction reports state `next` with
slot 08:00 — not `previous` with slot 20:00 as claimed (the channel is both
the next and the previous pick, and the final assignment gives `next`
precedence). -/
theorem scenario_2300_not_previous :
    calculateChannelStates [demoC4] 1380 (JSNum.int 11) =
      [("c1", ⟨"c1", ChState.next, some 480⟩)] ∧
    ChState.next ≠ ChState.previous ∧ (480 : Nat) ≠ 1200 := by decide

/-- C4 amended: the scenario channel is reported `current`/08:00 at 08:05 and
`next`/20:00 at 19:00; at 23:00 it is reported `next`/08:00 (tomorrow's first
slot), because the channel is simultaneously the global-next and the
global-previous candidate and `next` takes precedence in the final
assignment. -/
theorem scenario_three_instants :
    calculateChannelStates [demoC4] 485 (JSNum.int 11) =
      [("c1", ⟨"c1", ChState.current, some 480⟩)] ∧
    calculateChannelStates [demoC4] 1140 (JSNum.int 11) =
      [("c1", ⟨"c1", ChState.next, some 1200⟩)] ∧
    calculateChannelStates [demoC4] 1380 (JSNum.int 11) =
      [("c1", ⟨"c1", ChState.next, some 480⟩)] := by decide

/-- C8: for an automation-enabled channel with eligible slots, none active at
`now`: if some slot time is strictly after `now`, the state is `next` with
the smallest such time; otherwise the state is `next` with the smallest slot
time overall (tomorrow's first slot); in particular the single-slot channel
09:00 at `now = 10:00` reports `next`/09:00. -/
theorem channel_next_resolution (c : Channel) (now : Nat) (mi : JSNum)
    (hen : c.autoSendEnabled = true)
    (hne : channelTimes c ≠ [])
    (hno : ∀ t ∈ channelTimes c, slotIsActive t now (clampInterval mi) = false) :
    ((∃ t ∈ channelTimes c, now < t) →
      ∃ u, getChannelState c now mi = (ChState.next, some u) ∧ now < u ∧
        ∀ v ∈ channelTimes c, now < v → u ≤ v) ∧
    ((∀ t ∈ channelTimes c, t ≤ now) →
      ∃ u, getChannelState c now mi = (ChState.next, some u) ∧ u ∈ channelTimes c ∧
        ∀ v ∈ channelTimes c, u ≤ v) ∧
    getChannelState singleNine 600 (JSNum.int 11) = (ChState.next, some 540) := by
  have hschne : c.autoSendSchedules ≠ [] := by
    rcases List.exists_mem_of_ne_nil _ hne with ⟨t, ht⟩
    rcases mem_channelTimes.mp ht with ⟨s, hs, _, _⟩
    exact List.ne_nil_of_mem hs
  have hfindact :
      (channelTimes c).find? (fun v => slotIsActive v now (clampInterval mi)) = none := by
    rw [List.find?_eq_none]
    intro a ha
    simp [hno a ha]
  refine ⟨?_, ?_, by decide⟩
  · rintro ⟨t, ht, hlt⟩
    have hsome : ((channelTimes c).find? (fun v => decide (now < v))).isSome := by
      rw [List.find?_isSome]
      exact ⟨t, ht, by simpa using hlt⟩
    rcases Option.isSome_iff_exists.mp hsome with ⟨u, hu⟩
    refine ⟨u, ?_, by simpa using List.find?_some hu,
      fun v hv hnv => find?_sorted_le (channelTimes_sorted c) hu v hv (by simpa using hnv)⟩
    rw [getChannelState_eq c now mi hen hschne, hfindact, hu]
  · intro hall
    have hfind2 : (channelTimes c).find? (fun v => decide (now < v)) = none := by
      rw [List.find?_eq_none]
      intro a ha
      simpa using Nat.not_lt.mpr (hall a ha)
    rcases List.exists_cons_of_ne_nil hne with ⟨u, rest, hcons⟩
    refine ⟨u, ?_, ?_, ?_⟩
    · rw [getChannelState_eq c now mi hen hschne, hfindact, hfind2, hcons]
      rfl
    · rw [hcons]
      exact List.mem_cons_self u rest
    · intro v hv
      have hsorted := channelTimes_sorted c
      rw [hcons] at hv hsorted
      rcases List.mem_cons.mp hv with rfl | hv
      · exact le_refl _
      · exact List.rel_of_sorted_cons hsorted v hv

/-- C8 witness (the single-slot 09:00 channel at 10:00). -/
theorem channel_next_resolution_witness :
    singleNine.autoSendEnabled = true ∧
    channelTimes singleNine ≠ [] ∧
    (∀ t ∈ channelTimes singleNine, slotIsActive t 600 (clampInterval (JSNum.int 11)) = false) ∧
    (((∃ t ∈ channelTimes singleNine, 600 < t) →
        ∃ u, getChannelState singleNine 600 (JSNum.int 11) = (ChState.next, some u) ∧ 600 < u ∧
          ∀ v ∈ channelTimes singleNine, 600 < v → u ≤ v) ∧
      ((∀ t ∈ channelTimes singleNine, t ≤ 600) →
        ∃ u, getChannelState singleNine 600 (JSNum.int 11) = (ChState.next, some u) ∧
          u ∈ channelTimes singleNine ∧ ∀ v ∈ channelTimes singleNine, u ≤ v) ∧
      getChannelState singleNine 600 (JSNum.int 11) = (ChState.next, some 540)) :=
  ⟨by decide, by decide, by decide,
    channel_next_resolution singleNine 600 (JSNum.int 11) (by decide) (by decide) (by decide)⟩

/-- C9: the window used by the classifier is always in `[1, 60]`; an integer
already in `[1, 60]` is used unchanged; `NaN` (an invalid number), `0` and an
absent argument (the default `11`) all yield the default `11`. -/
theorem active_window_clamped (n : Int) (h1 : 1 ≤ n) (h60 : n ≤ 60) :
    (∀ x : JSNum, 1 ≤ clampInterval x ∧ clampInterval x ≤ 60) ∧
    clampInterval (JSNum.int n) = n.toNat ∧
    clampInterval JSNum.nan = 11 ∧
    clampInterval (JSNum.int 0) = 11 ∧
    clampInterval (JSNum.int 11) = 11 := by
  refine ⟨fun x => ?_, ?_, by decide, by decide, by decide⟩
  · cases x with
    | nan => decide
    | int m =>
      simp only [clampInterval, jsOrDefault]
      by_cases hm : m = 0
      · rw [if_pos hm]
        decide
      · rw [if_neg hm]
        omega
  · simp only [clampInterval, jsOrDefault]
    rw [if_neg (by omega)]
    omega

/-- C9 witness. -/
theorem active_window_clamped_witness :
    (1 : Int) ≤ 30 ∧ (30 : Int) ≤ 60 ∧
    ((∀ x : JSNum, 1 ≤ clampInterval x ∧ clampInterval x ≤ 60) ∧
     clampInterval (JSNum.int 30) = (30 : Int).toNat ∧
     clampInterval JSNum.nan = 11 ∧
     clampInterval (JSNum.int 0) = 11 ∧
     clampInterval (JSNum.int 11) = 11) :=
  ⟨by decide, by decide, active_window_clamped 30 (by decide) (by decide)⟩

/-- C1 (spec-modelled): a slot due at `now` and not yet fired today fires
exactly once across two invocations of the tick with the same `now`: the
first invocation performs the firing and records `lastFiredAt`, the second is
skipped by the idempotency gate and leaves the slot unchanged. -/
theorem tick_fires_once_per_date (s : TickSlot) (now : TickNow)
    (hdue : slotDue s now = true) (hgate : idempotencyGate s now = false) :
    (tickSlot s now).2 = 1 ∧
    tickSlot (tickSlot s now).1 now = ((tickSlot s now).1, 0) := by
  have h1 : tickSlot s now = ({ s with lastFiredAt := some now.date }, 1) := by
    unfold tickSlot
    rw [hdue, hgate]
    simp
  constructor
  · rw [h1]
  · rw [h1]
    have hg : idempotencyGate { s with lastFiredAt := some now.date } now = true := by
      simp [idempotencyGate]
    have hd : slotDue { s with lastFiredAt := some now.date } now = true := by
      simpa [slotDue] using hdue
    unfold tickSlot
    rw [hd, hg]
    simp

/-- C1 witness. -/
theorem tick_fires_once_per_date_witness :
    slotDue ⟨"t1", true, [0, 1, 2, 3, 4, 5, 6], 600, 1, none⟩ ⟨100, 3, 600⟩ = true ∧
    idempotencyGate ⟨"t1", true, [0, 1, 2, 3, 4, 5, 6], 600, 1, none⟩ ⟨100, 3, 600⟩ = false ∧
    ((tickSlot ⟨"t1", true, [0, 1, 2, 3, 4, 5, 6], 600, 1, none⟩ ⟨100, 3, 600⟩).2 = 1 ∧
      tickSlot (tickSlot ⟨"t1", true, [0, 1, 2, 3, 4, 5, 6], 600, 1, none⟩ ⟨100, 3, 600⟩).1
          ⟨100, 3, 600⟩ =
        ((tickSlot ⟨"t1", true, [0, 1, 2, 3, 4, 5, 6], 600, 1, none⟩ ⟨100, 3, 600⟩).1, 0)) :=
  ⟨by decide, by decide,
    tick_fires_once_per_date ⟨"t1", true, [0, 1, 2, 3, 4, 5, 6], 600, 1, none⟩ ⟨100, 3, 600⟩
      (by decide) (by decide)⟩

/-- Helper for C10: the per-channel classifier can only return `current`,
`next` or `default`. -/
theorem getChannelState_ne_previous (c : Channel) (now : Nat) (mi : JSNum) :
    (getChannelState c now mi).1 ≠ ChState.previous := by
  by_cases hen : c.autoSendEnabled = true
  · by_cases hsch : c.autoSendSchedules = []
    · unfold getChannelState
      rw [hsch]
      simp
    · rw [getChannelState_eq c now mi hen hsch]
      cases h1 : (channelTimes c).find? (fun t => slotIsActive t now (clampInterval mi)) with
      | some t => simp
      | none =>
        cases h2 : (channelTimes c).find? (fun t => decide (now < t)) with
        | some t => simp
        | none =>
          cases h3 : (channelTimes c).head? with
          | some t => simp
          | none => simp
  · unfold getChannelState
    have hf : c.autoSendEnabled = false := by simpa using hen
    rw [hf]
    simp

/-- C5: for every fleet of channels and every instant, the map returned by
the fleet-wide reduction contains at most one entry with state `current`. -/
theorem at_most_one_global_current (channels : List Channel) (now : Nat) (mi : JSNum) :
    ((calculateChannelStates channels now mi).filter
      (fun e => e.2.state == ChState.current)).length ≤ 1 := by
  rcases calculateChannelStates_entries channels now mi with ⟨hk, hent⟩
  cases hc : findCurrentPick channels now mi with
  | none =>
    have hnil : (calculateChannelStates channels now mi).filter
        (fun e => e.2.state == ChState.current) = [] := by
      rw [List.filter_eq_nil_iff]
      intro e he hpe
      have hstate : e.2.state = ChState.current := by simpa using hpe
      rw [hent e he] at hstate
      have hm := assignState_state_current hstate
      rw [hc] at hm
      simp [pickMatches] at hm
    rw [hnil]
    simp
  | some p =>
    apply filter_length_le_one _ p.channelId hk
    intro e he hpe
    have hstate : e.2.state = ChState.current := by simpa using hpe
    rw [hent e he] at hstate
    have hm := assignState_state_current hstate
    rcases pickMatches_some hm with ⟨q, hq, hkq⟩
    rw [hc] at hq
    cases hq
    exact hkq

/-- C10: the per-channel classifier never returns `previous`; the state
`previous` is assigned only by the fleet-wide reduction, to at most one
entry of the returned map. -/
theorem previous_only_fleet_wide (c : Channel) (channels : List Channel)
    (now : Nat) (mi : JSNum) :
    (getChannelState c now mi).1 ≠ ChState.previous ∧
    ((calculateChannelStates channels now mi).filter
      (fun e => e.2.state == ChState.previous)).length ≤ 1 := by
  refine ⟨getChannelState_ne_previous c now mi, ?_⟩
  rcases calculateChannelStates_entries channels now mi with ⟨hk, hent⟩
  cases hc : findPrevPick channels (findCurrentPick channels now mi) now (clampInterval mi) with
  | none =>
    have hnil : (calculateChannelStates channels now mi).filter
        (fun e => e.2.state == ChState.previous) = [] := by
      rw [List.filter_eq_nil_iff]
      intro e he hpe
      have hstate : e.2.state = ChState.previous := by simpa using hpe
      rw [hent e he] at hstate
      have hm := (assignState_state_previous hstate).2.2.1
      rw [hc] at hm
      simp [pickMatches] at hm
    rw [hnil]
    simp
  | some p =>
    apply filter_length_le_one _ p.channelId hk
    intro e he hpe
    have hstate : e.2.state = ChState.previous := by simpa using hpe
    rw [hent e he] at hstate
    have hm := (assignState_state_previous hstate).2.2.1
    rcases pickMatches_some hm with ⟨q, hq, hkq⟩
    rw [hc] at hq
    cases hq
    exact hkq

theorem nextCandidate_some {cur : Option Pick} {now : Nat} {mi : JSNum} {c : Channel}
    {p : Pick} (h : nextCandidate cur now mi c = some p) :
    pickMatches cur c.id = false ∧
    ∃ t, getChannelState c now mi = (ChState.next, some t) ∧
      p = ⟨c.id, t, normNext t now⟩ := by
  unfold nextCandidate at h
  by_cases hm : pickMatches cur c.id
  · rw [if_pos hm] at h
    cases h
  · rw [if_neg hm] at h
    refine ⟨by simpa using hm, ?_⟩
    rcases hg : getChannelState c now mi with ⟨st, ts⟩
    rw [hg] at h
    cases st with
    | current =>
      cases ts with
      | some t => cases h
      | none => cases h
    | next =>
      cases ts with
      | some t =>
        cases h
        exact ⟨t, rfl, rfl⟩
      | none => cases h
    | previous =>
      cases ts with
      | some t => cases h
      | none => cases h
    | default =>
      cases ts with
      | some t => cases h
      | none => cases h

theorem nextCandidate_of_state {cur : Option Pick} {now : Nat} {mi : JSNum} {c : Channel}
    {t : Nat} (hm : pickMatches cur c.id = false)
    (hg : getChannelState c now mi = (ChState.next, some t)) :
    nextCandidate cur now mi c = some ⟨c.id, t, normNext t now⟩ := by
  unfold nextCandidate
  rw [if_neg (by simp [hm]), hg]

theorem minutesUntilFire_eq_norm (t now : Nat) :
    minutesUntilFire t now = normNext t now - now := by
  unfold minutesUntilFire normNext
  by_cases hlt : now < t
  · rw [if_pos hlt, if_neg (by omega)]
  · rw [if_neg hlt, if_pos (by omega)]

/-- C6: a channel reported `next` by the fleet reduction is a next
candidate — its per-channel state is `next` and it is not the global-current
channel — and its reported slot minimizes minutes-until-fire (`time - now` if
`time > now`, else `time + 1440 - now`) among all such candidates. -/
theorem global_next_minimizes_wait (channels : List Channel) (now : Nat) (mi : JSNum)
    (k : String) (info : ChannelStateInfo)
    (hmem : (k, info) ∈ calculateChannelStates channels now mi)
    (hst : info.state = ChState.next) :
    ∃ tk, info.timeSlot = some tk ∧
      (∃ c ∈ channels, c.id = k ∧
        pickMatches (findCurrentPick channels now mi) c.id = false ∧
        getChannelState c now mi = (ChState.next, some tk)) ∧
      (∀ c ∈ channels,
        pickMatches (findCurrentPick channels now mi) c.id = false →
        ∀ t, getChannelState c now mi = (ChState.next, some t) →
          minutesUntilFire tk now ≤ minutesUntilFire t now) := by
  rcases calculateChannelStates_entries channels now mi with ⟨_, hent⟩
  have hinfo : info = assignState (findCurrentPick channels now mi)
      (findNextPick channels (findCurrentPick channels now mi) now mi)
      (findPrevPick channels (findCurrentPick channels now mi) now (clampInterval mi)) k :=
    hent (k, info) hmem
  have hstate : (assignState (findCurrentPick channels now mi)
      (findNextPick channels (findCurrentPick channels now mi) now mi)
      (findPrevPick channels (findCurrentPick channels now mi) now
        (clampInterval mi)) k).state = ChState.next := by
    rw [← hinfo]
    exact hst
  rcases assignState_state_next hstate with ⟨hcurf, hnxtt, hts⟩
  rcases pickMatches_some hnxtt with ⟨p, hp, hkp⟩
  have hfold : (channels.filterMap
      (nextCandidate (findCurrentPick channels now mi) now mi)).foldl argminStep none =
      some p := by
    rw [← findNextPick_eq]
    exact hp
  rcases foldl_argminStep_mem _ none p hfold with hmemp | habs
  swap
  · cases habs
  rcases List.mem_filterMap.mp hmemp with ⟨c, hc, hcand⟩
  rcases nextCandidate_some hcand with ⟨hcm, t, hgt, rfl⟩
  refine ⟨t, ?_, ⟨c, hc, hkp.symm, hcm, hgt⟩, ?_⟩
  · rw [hinfo, hts, hp]
    rfl
  · intro d hd hdm u hgu
    have hmemd : (⟨d.id, u, normNext u now⟩ : Pick) ∈
        channels.filterMap (nextCandidate (findCurrentPick channels now mi) now mi) :=
      List.mem_filterMap.mpr ⟨d, hd, nextCandidate_of_state hdm hgu⟩
    have hle := foldl_argminStep_le _ none _ hfold _ hmemd
    rw [minutesUntilFire_eq_norm t now, minutesUntilFire_eq_norm u now]
    exact Nat.sub_le_sub_right hle now

/-- C6 witness. -/
theorem global_next_minimizes_wait_witness :
    ("a", (⟨"a", ChState.next, some 900⟩ : ChannelStateInfo)) ∈
      calculateChannelStates [chUpcoming, chEnded] 600 (JSNum.int 11) ∧
    (⟨"a", ChState.next, some 900⟩ : ChannelStateInfo).state = ChState.next ∧
    (∃ tk, (⟨"a", ChState.next, some 900⟩ : ChannelStateInfo).timeSlot = some tk ∧
      (∃ c ∈ [chUpcoming, chEnded], c.id = "a" ∧
        pickMatches (findCurrentPick [chUpcoming, chEnded] 600 (JSNum.int 11)) c.id = false ∧
        getChannelState c 600 (JSNum.int 11) = (ChState.next, some tk)) ∧
      (∀ c ∈ [chUpcoming, chEnded],
        pickMatches (findCurrentPick [chUpcoming, chEnded] 600 (JSNum.int 11)) c.id = false →
        ∀ t, getChannelState c 600 (JSNum.int 11) = (ChState.next, some t) →
          minutesUntilFire tk 600 ≤ minutesUntilFire t 600)) :=
  ⟨by decide, rfl,
    global_next_minimizes_wait [chUpcoming, chEnded] 600 (JSNum.int 11) "a"
      ⟨"a", ChState.next, some 900⟩ (by decide) rfl⟩

theorem mem_pastCandidates {channels : List Channel} {cur : Option Pick} {now W : Nat}
    {e : Pick} (h : e ∈ pastCandidates channels cur now W) :
    ∃ c ∈ channels, prevEligible cur c = true ∧
      ∃ t ∈ channelTimes c, slotIsPast t now W = true ∧ e = ⟨c.id, t, t⟩ := by
  rcases List.mem_flatMap.mp h with ⟨c, hc, he⟩
  by_cases hel : prevEligible cur c
  · rw [if_pos hel] at he
    unfold pastCands at he
    rcases List.mem_map.mp he with ⟨t, htf, rfl⟩
    rcases List.mem_filter.mp htf with ⟨ht, hpast⟩
    exact ⟨c, hc, hel, t, ht, hpast, rfl⟩
  · rw [if_neg hel] at he
    simp at he

theorem pastCandidates_mem {channels : List Channel} {cur : Option Pick} {now W : Nat}
    {c : Channel} {t : Nat} (hc : c ∈ channels) (hel : prevEligible cur c = true)
    (ht : t ∈ channelTimes c) (hpast : slotIsPast t now W = true) :
    (⟨c.id, t, t⟩ : Pick) ∈ pastCandidates channels cur now W :=
  List.mem_flatMap.mpr ⟨c, hc, by
    rw [if_pos hel]
    exact List.mem_map_of_mem _ (List.mem_filter.mpr ⟨ht, hpast⟩)⟩

theorem pastCandidates_nil {channels : List Channel} {cur : Option Pick} {now W : Nat}
    (h : pastCandidates channels cur now W = []) :
    ∀ c ∈ channels, prevEligible cur c = true →
      ∀ u ∈ channelTimes c, slotIsPast u now W = false := by
  intro c hc hel u hu
  by_contra hcon
  have hpast : slotIsPast u now W = true := by
    revert hcon
    cases slotIsPast u now W <;> simp
  have hm := pastCandidates_mem hc hel hu hpast
  rw [h] at hm
  simp at hm

theorem mem_lastSlotCandidates {channels : List Channel} {cur : Option Pick} {e : Pick}
    (h : e ∈ lastSlotCandidates channels cur) :
    ∃ c ∈ channels, prevEligible cur c = true ∧
      ∃ t, (channelTimes c).getLast? = some t ∧ e = ⟨c.id, t, t⟩ := by
  rcases List.mem_filterMap.mp h with ⟨c, hc, hfc⟩
  by_cases hel : prevEligible cur c
  · rw [if_pos hel] at hfc
    rcases Option.map_eq_some'.mp hfc with ⟨t, hgl, rfl⟩
    exact ⟨c, hc, hel, t, hgl, rfl⟩
  · rw [if_neg hel] at hfc
    cases hfc

theorem lastSlotCandidates_mem {channels : List Channel} {cur : Option Pick}
    {c : Channel} {t : Nat} (hc : c ∈ channels) (hel : prevEligible cur c = true)
    (hgl : (channelTimes c).getLast? = some t) :
    (⟨c.id, t, t⟩ : Pick) ∈ lastSlotCandidates channels cur :=
  List.mem_filterMap.mpr ⟨c, hc, by rw [if_pos hel, hgl]; rfl⟩

/-- C7: a channel reported `previous` by the fleet reduction carries a slot
`tk` obtained by one of the two phases of the previous-channel scan: either
`tk` is a slot of an eligible channel (automation-enabled, not the
global-current channel) whose active window has already ended today, maximal
among all such slots; or no eligible slot ended today, and `tk` is an
eligible channel's latest slot, maximal among those. -/
theorem global_previous_rule (channels : List Channel) (now : Nat) (mi : JSNum)
    (k : String) (info : ChannelStateInfo)
    (hmem : (k, info) ∈ calculateChannelStates channels now mi)
    (hst : info.state = ChState.previous) :
    ∃ tk, info.timeSlot = some tk ∧
      (((∃ c ∈ channels, prevEligible (findCurrentPick channels now mi) c = true ∧
          c.id = k ∧ tk ∈ channelTimes c ∧ slotIsPast tk now (clampInterval mi) = true) ∧
        (∀ c ∈ channels, prevEligible (findCurrentPick channels now mi) c = true →
          ∀ u ∈ channelTimes c, slotIsPast u now (clampInterval mi) = true → u ≤ tk)) ∨
       ((∀ c ∈ channels, prevEligible (findCurrentPick channels now mi) c = true →
          ∀ u ∈ channelTimes c, slotIsPast u now (clampInterval mi) = false) ∧
        (∃ c ∈ channels, prevEligible (findCurrentPick channels now mi) c = true ∧
          c.id = k ∧ (channelTimes c).getLast? = some tk) ∧
        (∀ c ∈ channels, prevEligible (findCurrentPick channels now mi) c = true →
          ∀ u, (channelTimes c).getLast? = some u → u ≤ tk))) := by
  rcases calculateChannelStates_entries channels now mi with ⟨_, hent⟩
  have hinfo : info = assignState (findCurrentPick channels now mi)
      (findNextPick channels (findCurrentPick channels now mi) now mi)
      (findPrevPick channels (findCurrentPick channels now mi) now (clampInterval mi)) k :=
    hent (k, info) hmem
  have hstate : (assignState (findCurrentPick channels now mi)
      (findNextPick channels (findCurrentPick channels now mi) now mi)
      (findPrevPick channels (findCurrentPick channels now mi) now
        (clampInterval mi)) k).state = ChState.previous := by
    rw [← hinfo]
    exact hst
  rcases assignState_state_previous hstate with ⟨_, _, hprvt, hts⟩
  rcases pickMatches_some hprvt with ⟨p, hp0, hkp⟩
  have hp := hp0
  rw [findPrevPick_eq] at hp
  cases hpast : (pastCandidates channels (findCurrentPick channels now mi) now
      (clampInterval mi)).foldl argmaxStep none with
  | some q =>
    rw [hpast] at hp
    replace hp : some q = some p := hp
    rcases Option.some.inj hp with rfl
    rcases foldl_argmaxStep_mem _ none q hpast with hmq | habs
    swap
    · cases habs
    rcases mem_pastCandidates hmq with ⟨c, hc, hel, t, ht, hpastt, rfl⟩
    refine ⟨t, ?_, Or.inl ⟨⟨c, hc, hel, hkp.symm, ht, hpastt⟩, ?_⟩⟩
    · rw [hinfo, hts, hp0]
      rfl
    · intro d hd held u hu hupast
      exact foldl_argmaxStep_ge _ none _ hpast _ (pastCandidates_mem hd held hu hupast)
  | none =>
    rw [hpast] at hp
    replace hp : (lastSlotCandidates channels
        (findCurrentPick channels now mi)).foldl argmaxStep none = some p := hp
    have hnil : pastCandidates channels (findCurrentPick channels now mi) now
        (clampInterval mi) = [] := (foldl_argmaxStep_none _ none hpast).2
    rcases foldl_argmaxStep_mem _ none p hp with hmq | habs
    swap
    · cases habs
    rcases mem_lastSlotCandidates hmq with ⟨c, hc, hel, t, hgl, rfl⟩
    refine ⟨t, ?_, Or.inr ⟨pastCandidates_nil hnil, ⟨c, hc, hel, hkp.symm, hgl⟩, ?_⟩⟩
    · rw [hinfo, hts, hp0]
      rfl
    · intro d hd held u hgu
      exact foldl_argmaxStep_ge _ none _ hp _ (lastSlotCandidates_mem hd held hgu)

/-- C7 witness (the fleet `[chUpcoming, chEnded]` at 10:00 reports `chEnded`
as `previous` with its 08:00 slot, which ended at 08:11). -/
theorem global_previous_rule_witness :
    ("b", (⟨"b", ChState.previous, some 480⟩ : ChannelStateInfo)) ∈
      calculateChannelStates [chUpcoming, chEnded] 600 (JSNum.int 11) ∧
    (⟨"b", ChState.previous, some 480⟩ : ChannelStateInfo).state = ChState.previous ∧
    (∃ tk, (⟨"b", ChState.previous, some 480⟩ : ChannelStateInfo).timeSlot = some tk ∧
      (((∃ c ∈ [chUpcoming, chEnded],
          prevEligible (findCurrentPick [chUpcoming, chEnded] 600 (JSNum.int 11)) c = true ∧
          c.id = "b" ∧ tk ∈ channelTimes c ∧
          slotIsPast tk 600 (clampInterval (JSNum.int 11)) = true) ∧
        (∀ c ∈ [chUpcoming, chEnded],
          prevEligible (findCurrentPick [chUpcoming, chEnded] 600 (JSNum.int 11)) c = true →
          ∀ u ∈ channelTimes c, slotIsPast u 600 (clampInterval (JSNum.int 11)) = true →
            u ≤ tk)) ∨
       ((∀ c ∈ [chUpcoming, chEnded],
          prevEligible (findCurrentPick [chUpcoming, chEnded] 600 (JSNum.int 11)) c = true →
          ∀ u ∈ channelTimes c, slotIsPast u 600 (clampInterval (JSNum.int 11)) = false) ∧
        (∃ c ∈ [chUpcoming, chEnded],
          prevEligible (findCurrentPick [chUpcoming, chEnded] 600 (JSNum.int 11)) c = true ∧
          c.id = "b" ∧ (channelTimes c).getLast? = some tk) ∧
        (∀ c ∈ [chUpcoming, chEnded],
          prevEligible (findCurrentPick [chUpcoming, chEnded] 600 (JSNum.int 11)) c = true →
          ∀ u, (channelTimes c).getLast? = some u → u ≤ tk)))) :=
  ⟨by decide, rfl,
    global_previous_rule [chUpcoming, chEnded] 600 (JSNum.int 11) "b"
      ⟨"b", ChState.previous, some 480⟩ (by decide) rfl⟩

end AutoSend
